/-
Verification of the AVSIP telemetry core (Akita Vehicle Sensor Integration
Plugin) against its natural-language specification.

A shallow embedding of the Python source:
  * `src/avsip/utils.py`        — `RateLimiter`
  * `src/avsip/can_handler.py`  — signal-definition catalog build,
                                  frame decoding, listener loop
  * `src/avsip/core.py`         — data collection and per-sink dispatch

Python numbers are modelled as a tagged union of integers and
(idealized, exact-rational) floats; monotonic-clock instants as rationals;
byte payloads as lists of naturals below 256.
-/
import Mathlib

namespace AVSIP

/-! ## Python numeric values

A JSON-sourced number in the config is either a Python `int` or a Python
`float`.  Arithmetic follows Python promotion: `int ∘ int → int`, any
operand a float makes the result a float.  Floats are idealized as exact
rationals. -/

/-- A Python number: either an `int` or a `float` (idealized as an exact
rational). -/
inductive PyNum where
  | pint (n : ℤ) : PyNum
  | pfloat (q : ℚ) : PyNum
  deriving Repr, DecidableEq

/-- The rational value of a Python number. -/
def PyNum.toRat : PyNum → ℚ
  | .pint n => (n : ℚ)
  | .pfloat q => q

/-- Whether the Python number is a `float` (`isinstance(x, float)`). -/
def PyNum.isFloat : PyNum → Bool
  | .pint _ => false
  | .pfloat _ => true

/-- Python multiplication of an `int` by a Python number
(`raw_value * scale` in `_parse_can_message`): an `int` times an `int`
is an `int`; an `int` times a `float` is a `float`. -/
def PyNum.mulInt (n : ℤ) : PyNum → PyNum
  | .pint m => .pint (n * m)
  | .pfloat q => .pfloat ((n : ℚ) * q)

/-- Python addition of two Python numbers (`... + offset`): the result is
an `int` only when both operands are `int`s. -/
def PyNum.add : PyNum → PyNum → PyNum
  | .pint n, .pint m => .pint (n + m)
  | .pint n, .pfloat q => .pfloat ((n : ℚ) + q)
  | .pfloat q, .pint m => .pfloat (q + (m : ℚ))
  | .pfloat q, .pfloat r => .pfloat (q + r)

/-- Round a rational to the nearest integer, ties to even — the rounding
mode of Python `round`. -/
def roundHalfEven (q : ℚ) : ℤ :=
  if q - (⌊q⌋ : ℚ) < 1/2 then ⌊q⌋
  else if 1/2 < q - (⌊q⌋ : ℚ) then ⌊q⌋ + 1
  else if ⌊q⌋ % 2 = 0 then ⌊q⌋ else ⌊q⌋ + 1

/-- Python `round(x, 4)` on an (idealized) float: round `x·10⁴` half to
even, then scale back. -/
def pyRound4 (q : ℚ) : ℚ := (roundHalfEven (q * 10^4) : ℚ) / 10^4

/-- The value stored into a decoded sample
(`round(final_value, 4) if isinstance(final_value, float) else final_value`). -/
def PyNum.emit : PyNum → PyNum
  | .pint n => .pint n
  | .pfloat q => .pfloat (pyRound4 q)

/-! ## RateLimiter (`src/avsip/utils.py`)

The limiter's mutable state is `{interval, last_triggered_time}`;
`time.monotonic()` is passed in explicitly as `now`. -/

/-- The `RateLimiter` state: configured interval and the monotonic instant
of the last successful trigger (`0.0` initially and after `reset`). -/
structure RateLimiter where
  interval : ℚ
  last_triggered_time : ℚ
  deriving Repr, DecidableEq

/-- `RateLimiter.__init__`: rejects a non-positive interval, otherwise
starts with `last_triggered_time = 0.0`. -/
def RateLimiter.make (interval_seconds : ℚ) : Option RateLimiter :=
  if interval_seconds ≤ 0 then none
  else some ⟨interval_seconds, 0⟩

/-- `RateLimiter.try_trigger` at monotonic instant `now`: returns the
boolean result and the successor state. -/
def RateLimiter.try_trigger (now : ℚ) (r : RateLimiter) : Bool × RateLimiter :=
  if r.interval ≤ now - r.last_triggered_time then
    (true, { r with last_triggered_time := now })
  else
    (false, r)

/-- `RateLimiter.reset`: sets `last_triggered_time` back to `0.0`. -/
def RateLimiter.reset (r : RateLimiter) : RateLimiter :=
  { r with last_triggered_time := 0 }

/-- `RateLimiter.time_since_last_trigger` at monotonic instant `now`. -/
def RateLimiter.time_since_last_trigger (now : ℚ) (r : RateLimiter) : ℚ :=
  now - r.last_triggered_time

/-- `RateLimiter.time_to_next_trigger` at monotonic instant `now`. -/
def RateLimiter.time_to_next_trigger (now : ℚ) (r : RateLimiter) : ℚ :=
  max 0 (r.interval - r.time_since_last_trigger now)

/-! ## Frame decoding (`CANHandler._parse_can_message`)

A catalog entry, once built, carries a signal name and the fields of its
`parser` record.  The catalog build admits only `simple_scalar` parsers,
but the decoder re-checks the type tag exactly as the source does. -/

/-- One signal definition as stored in `message_definitions`: the signal
name plus the `parser_config` fields, here at the types the data model
assigns them. -/
structure SignalDef where
  name : String
  ptype : String
  start_byte : ℕ
  length_bytes : ℕ
  scale : PyNum
  offset : PyNum
  is_signed : Bool
  byte_order : String
  deriving Repr, DecidableEq

/-- One decoded sample as enqueued by the listener:
`{"timestamp": ..., "name": ..., "value": ...}`. -/
structure Sample where
  timestamp : ℚ
  name : String
  value : PyNum
  deriving Repr, DecidableEq

/-- Big-endian accumulation of a byte string into an unsigned integer:
`int.from_bytes(raw_bytes, byteorder='big', signed=False)`. -/
def bytesToNatBE (bs : List ℕ) : ℕ :=
  bs.foldl (fun acc b => acc * 256 + b) 0

/-- Little-endian accumulation: `int.from_bytes(raw_bytes,
byteorder='little', signed=False)` reads the bytes in reverse. -/
def bytesToNatLE (bs : List ℕ) : ℕ :=
  bytesToNatBE bs.reverse

/-- `int.from_bytes(raw_bytes, byteorder, signed=is_signed)`: the unsigned
accumulation, reinterpreted in two's complement over `8·len` bits when
signed and the top bit is set. -/
def intFromBytes (bs : List ℕ) (byte_order : String) (is_signed : Bool) : ℤ :=
  let u : ℕ := if byte_order = "little" then bytesToNatLE bs else bytesToNatBE bs
  if is_signed ∧ 2 * u ≥ 2 ^ (8 * bs.length) then
    (u : ℤ) - 2 ^ (8 * bs.length)
  else
    (u : ℤ)

/-- The loop body of `_parse_can_message` for one signal definition:
`none` when the definition contributes no sample to the result list
(unsupported parser type, or payload too short). -/
def parseOneSignal (payload : List ℕ) (ts : ℚ) (d : SignalDef) : Option Sample :=
  if d.ptype = "simple_scalar" then
    if d.start_byte + d.length_bytes > payload.length then
      none
    else
      let raw_bytes := (payload.drop d.start_byte).take d.length_bytes
      let raw_value := intFromBytes raw_bytes d.byte_order d.is_signed
      let final_value := (PyNum.mulInt raw_value d.scale).add d.offset
      some ⟨ts, d.name, final_value.emit⟩
  else
    none

/-- `_parse_can_message` restricted to the definitions registered for the
frame's arbitration id: each definition contributes at most one sample, in
catalog order. -/
def parseCanMessage (defs : List SignalDef) (payload : List ℕ) (ts : ℚ) :
    List Sample :=
  defs.filterMap (parseOneSignal payload ts)

/-! ### Specification-side byte semantics

The spec states the raw integer positionally: the byte at offset `i` of
the selected slice weighs `256^i` (little-endian) or `256^(len-1-i)`
(big-endian), and signedness is standard two's complement over `8·len`
bits.  These definitions follow the spec's words; the theorems connect
them to the fold-based implementation above. -/

/-- Positional value of the payload slice `[start, start+len)` in the
configured byte order, per the spec's phrasing. -/
def specRawUnsigned (payload : List ℕ) (start len : ℕ) (byte_order : String) : ℕ :=
  if byte_order = "little" then
    ∑ i ∈ Finset.range len, payload.getD (start + i) 0 * 256 ^ i
  else
    ∑ i ∈ Finset.range len, payload.getD (start + i) 0 * 256 ^ (len - 1 - i)

/-- Two's-complement reading of an unsigned value `u` over `w` bits:
the unique representative of `u mod 2^w` in `[-2^(w-1), 2^(w-1))`
(for `w = 0` this is `0`). -/
def twosComplement (u : ℕ) (w : ℕ) : ℤ :=
  ((u : ℤ) + 2 ^ (w - 1)) % 2 ^ w - 2 ^ (w - 1)

/-- The spec's raw integer for a signal over a payload. -/
def specRawInt (payload : List ℕ) (d : SignalDef) : ℤ :=
  let u := specRawUnsigned payload d.start_byte d.length_bytes d.byte_order
  if d.is_signed then twosComplement u (8 * d.length_bytes) else (u : ℤ)

/-- The spec's exact (pre-rounding) decoded value
`raw_int * scale + offset`, at Python promotion. -/
def specExactValue (payload : List ℕ) (d : SignalDef) : PyNum :=
  (PyNum.mulInt (specRawInt payload d) d.scale).add d.offset

/-! ### Byte-accumulation lemmas -/

theorem foldl_byte_acc (a : ℕ) (bs : List ℕ) :
    bs.foldl (fun acc b => acc * 256 + b) a = a * 256 ^ bs.length + bytesToNatBE bs := by
  induction bs generalizing a with
  | nil => simp [bytesToNatBE]
  | cons b bs ih =>
      simp only [List.foldl_cons, List.length_cons, bytesToNatBE]
      rw [ih (a * 256 + b), ih (0 * 256 + b)]
      ring

theorem bytesToNatBE_cons (b : ℕ) (bs : List ℕ) :
    bytesToNatBE (b :: bs) = b * 256 ^ bs.length + bytesToNatBE bs := by
  have h := foldl_byte_acc b bs
  simpa [bytesToNatBE] using h

theorem bytesToNatLE_cons (b : ℕ) (bs : List ℕ) :
    bytesToNatLE (b :: bs) = b + 256 * bytesToNatLE bs := by
  simp only [bytesToNatLE, List.reverse_cons]
  rw [bytesToNatBE, List.foldl_append]
  simp only [List.foldl_cons, List.foldl_nil]
  rw [show (List.foldl (fun acc b => acc * 256 + b) 0 bs.reverse) = bytesToNatBE bs.reverse from rfl]
  ring

theorem bytesToNatLE_sum (bs : List ℕ) :
    bytesToNatLE bs = ∑ i ∈ Finset.range bs.length, bs.getD i 0 * 256 ^ i := by
  induction bs with
  | nil => simp [bytesToNatLE, bytesToNatBE]
  | cons b bs ih =>
      rw [bytesToNatLE_cons, ih]
      simp only [List.length_cons]
      rw [Finset.sum_range_succ']
      simp only [List.getD_cons_succ, List.getD_cons_zero, pow_zero, mul_one, pow_succ]
      rw [Finset.mul_sum]
      have hterm : ∀ i ∈ Finset.range bs.length,
          bs.getD i 0 * (256 ^ i * 256) = 256 * (bs.getD i 0 * 256 ^ i) :=
        fun i _ => by ring
      rw [Finset.sum_congr rfl hterm]
      ring

theorem bytesToNatBE_eq_le_reverse (bs : List ℕ) :
    bytesToNatBE bs = bytesToNatLE bs.reverse := by
  simp [bytesToNatLE]

theorem bytesToNatBE_sum (bs : List ℕ) :
    bytesToNatBE bs = ∑ i ∈ Finset.range bs.length, bs.getD i 0 * 256 ^ (bs.length - 1 - i) := by
  induction bs with
  | nil => simp [bytesToNatBE]
  | cons b bs ih =>
      rw [bytesToNatBE_cons, ih]
      simp only [List.length_cons]
      rw [Finset.sum_range_succ']
      simp only [List.getD_cons_succ, List.getD_cons_zero]
      have h0 : bs.length + 1 - 1 - 0 = bs.length := by omega
      have hterm : ∀ i ∈ Finset.range bs.length,
          bs.getD i 0 * 256 ^ (bs.length + 1 - 1 - (i + 1)) =
          bs.getD i 0 * 256 ^ (bs.length - 1 - i) := by
        intro i _
        congr 2
        omega
      rw [Finset.sum_congr rfl hterm, h0]
      ring

theorem bytesToNatBE_lt (bs : List ℕ) (h : ∀ b ∈ bs, b < 256) :
    bytesToNatBE bs < 2 ^ (8 * bs.length) := by
  induction bs with
  | nil => simp [bytesToNatBE]
  | cons b bs ih =>
      rw [bytesToNatBE_cons]
      have hb : b < 256 := h b (List.mem_cons_self b bs)
      have hbs : bytesToNatBE bs < 2 ^ (8 * bs.length) :=
        ih (fun x hx => h x (List.mem_cons_of_mem b hx))
      have hpow : (256 : ℕ) ^ bs.length = 2 ^ (8 * bs.length) := by
        rw [pow_mul]
        norm_num
      have : b * 256 ^ bs.length + bytesToNatBE bs
          < 256 * 256 ^ bs.length := by
        calc b * 256 ^ bs.length + bytesToNatBE bs
            < b * 256 ^ bs.length + 256 ^ bs.length := by
              rw [hpow]; omega
          _ ≤ 255 * 256 ^ bs.length + 256 ^ bs.length := by
              have : b ≤ 255 := by omega
              exact Nat.add_le_add_right
                (Nat.mul_le_mul_right _ this) _
          _ = 256 * 256 ^ bs.length := by ring
      calc b * 256 ^ bs.length + bytesToNatBE bs
          < 256 * 256 ^ bs.length := this
        _ = 2 ^ (8 * (bs.length + 1)) := by
            rw [show 8 * (bs.length + 1) = 8 * bs.length + 8 by ring,
              pow_add, ← hpow]
            norm_num
            ring
        _ = 2 ^ (8 * (b :: bs).length) := by simp

theorem bytesToNatLE_lt (bs : List ℕ) (h : ∀ b ∈ bs, b < 256) :
    bytesToNatLE bs < 2 ^ (8 * bs.length) := by
  rw [bytesToNatLE, ← List.length_reverse bs]
  exact bytesToNatBE_lt bs.reverse (fun b hb => h b (List.mem_reverse.mp hb))

/-! ### Two's complement and slice lemmas -/

theorem twosComplement_eq_ite (u w : ℕ) (hw : 1 ≤ w) (hu : u < 2 ^ w) :
    twosComplement u w =
      if 2 ^ w ≤ 2 * u then (u : ℤ) - 2 ^ w else (u : ℤ) := by
  obtain ⟨k, rfl⟩ : ∃ k, w = k + 1 := ⟨w - 1, by omega⟩
  unfold twosComplement
  simp only [Nat.add_sub_cancel]
  have hpow : ((2 : ℤ) ^ (k + 1)) = 2 * 2 ^ k := by ring
  have hu' : (u : ℤ) < 2 ^ (k + 1) := by exact_mod_cast hu
  have hpk : (0 : ℤ) < 2 ^ k := by positivity
  by_cases hge : 2 ^ (k + 1) ≤ 2 * u
  · have hgeZ : (2 : ℤ) ^ k ≤ (u : ℤ) := by
      have : (2 : ℤ) ^ (k + 1) ≤ 2 * (u : ℤ) := by exact_mod_cast hge
      rw [hpow] at this
      linarith
    have hsplit : (u : ℤ) + 2 ^ k = ((u : ℤ) + 2 ^ k - 2 ^ (k + 1)) + 2 ^ (k + 1) * 1 := by
      ring
    rw [hsplit, Int.add_mul_emod_self_left,
      Int.emod_eq_of_lt (by rw [hpow] at *; linarith) (by rw [hpow] at *; linarith)]
    rw [if_pos hge]
    ring
  · have hltZ : (u : ℤ) < 2 ^ k := by
      have : 2 * (u : ℤ) < 2 ^ (k + 1) := by
        have := lt_of_not_le hge
        exact_mod_cast this
      rw [hpow] at this
      linarith
    rw [Int.emod_eq_of_lt (by positivity) (by rw [hpow]; linarith)]
    rw [if_neg hge]
    ring

theorem slice_length (l : List ℕ) (s L : ℕ) (hfit : s + L ≤ l.length) :
    ((l.drop s).take L).length = L := by
  rw [List.length_take, List.length_drop]
  omega

theorem slice_getD (l : List ℕ) (s L i : ℕ) (hi : i < L) :
    ((l.drop s).take L).getD i 0 = l.getD (s + i) 0 := by
  rw [List.getD_eq_getElem?_getD, List.getElem?_take, if_pos hi,
    List.getElem?_drop, List.getD_eq_getElem?_getD]

theorem slice_mem (l : List ℕ) (s L : ℕ) (b : ℕ)
    (hb : b ∈ (l.drop s).take L) : b ∈ l :=
  List.mem_of_mem_drop (List.mem_of_mem_take hb)

/-- The fold-based `int.from_bytes` applied to the selected slice agrees
with the spec's positional two's-complement formula. -/
theorem intFromBytes_slice_eq_specRawInt (payload : List ℕ) (d : SignalDef)
    (hlen : 1 ≤ d.length_bytes)
    (hfit : d.start_byte + d.length_bytes ≤ payload.length)
    (hbytes : ∀ b ∈ payload, b < 256) :
    intFromBytes ((payload.drop d.start_byte).take d.length_bytes)
        d.byte_order d.is_signed = specRawInt payload d := by
  set bs := (payload.drop d.start_byte).take d.length_bytes with hbs
  have hbsl : bs.length = d.length_bytes := slice_length _ _ _ hfit
  have hbmem : ∀ b ∈ bs, b < 256 := fun b hb => hbytes b (slice_mem _ _ _ _ hb)
  have hsum_be : bytesToNatBE bs =
      ∑ i ∈ Finset.range d.length_bytes,
        payload.getD (d.start_byte + i) 0 * 256 ^ (d.length_bytes - 1 - i) := by
    rw [bytesToNatBE_sum, hbsl]
    exact Finset.sum_congr rfl fun i hi => by
      rw [slice_getD payload _ _ _ (Finset.mem_range.mp hi)]
  have hsum_le : bytesToNatLE bs =
      ∑ i ∈ Finset.range d.length_bytes,
        payload.getD (d.start_byte + i) 0 * 256 ^ i := by
    rw [bytesToNatLE_sum, hbsl]
    exact Finset.sum_congr rfl fun i hi => by
      rw [slice_getD payload _ _ _ (Finset.mem_range.mp hi)]
  have huval : (if d.byte_order = "little" then bytesToNatLE bs else bytesToNatBE bs)
      = specRawUnsigned payload d.start_byte d.length_bytes d.byte_order := by
    unfold specRawUnsigned
    by_cases hbo : d.byte_order = "little"
    · rw [if_pos hbo, if_pos hbo, hsum_le]
    · rw [if_neg hbo, if_neg hbo, hsum_be]
  have hult : (if d.byte_order = "little" then bytesToNatLE bs else bytesToNatBE bs)
      < 2 ^ (8 * d.length_bytes) := by
    by_cases hbo : d.byte_order = "little"
    · rw [if_pos hbo, ← hbsl]; exact bytesToNatLE_lt bs hbmem
    · rw [if_neg hbo, ← hbsl]; exact bytesToNatBE_lt bs hbmem
  unfold intFromBytes specRawInt
  rw [hbsl]
  cases hs : d.is_signed with
  | false => simp only [Bool.false_eq_true, false_and, if_false, huval]
  | true =>
      rw [huval] at hult
      simp only [huval]
      rw [twosComplement_eq_ite _ _ (by omega) hult]
      simp [ge_iff_le]

/-! ### Rounding lemmas -/

theorem roundHalfEven_diff (q : ℚ) : |((roundHalfEven q : ℤ) : ℚ) - q| ≤ 1/2 := by
  have h1 : ((⌊q⌋ : ℤ) : ℚ) ≤ q := Int.floor_le q
  have h2 : q < ((⌊q⌋ : ℤ) : ℚ) + 1 := Int.lt_floor_add_one q
  unfold roundHalfEven
  split_ifs with ha hb hc <;> rw [abs_le] <;> constructor <;> push_cast <;> linarith

theorem pyRound4_diff (q : ℚ) : |pyRound4 q - q| ≤ 1 / 20000 := by
  have h := roundHalfEven_diff (q * 10 ^ 4)
  have heq : pyRound4 q - q =
      (((roundHalfEven (q * 10 ^ 4) : ℤ) : ℚ) - q * 10 ^ 4) / 10 ^ 4 := by
    unfold pyRound4
    ring
  rw [heq, abs_div, show |(10 : ℚ) ^ 4| = 10 ^ 4 by norm_num,
    div_le_iff₀ (by norm_num : (0 : ℚ) < 10 ^ 4)]
  calc |((roundHalfEven (q * 10 ^ 4) : ℤ) : ℚ) - q * 10 ^ 4| ≤ 1/2 := h
    _ ≤ 1 / 20000 * 10 ^ 4 := by norm_num

theorem pyRound4_quantized (q : ℚ) : (pyRound4 q * 10 ^ 4).den = 1 := by
  unfold pyRound4
  rw [div_mul_cancel₀ _ (by norm_num : (10 : ℚ) ^ 4 ≠ 0)]
  exact Rat.den_intCast _

/-! ### Decoding theorems -/

/-- Shared lemma: for a valid catalog signal whose byte range fits the
payload, the per-signal parse produces exactly the sample carrying
`emit(specExactValue)`. -/
theorem parseOneSignal_eq_spec (d : SignalDef) (payload : List ℕ) (ts : ℚ)
    (hty : d.ptype = "simple_scalar")
    (hlen : 1 ≤ d.length_bytes)
    (hfit : d.start_byte + d.length_bytes ≤ payload.length)
    (hbytes : ∀ b ∈ payload, b < 256) :
    parseOneSignal payload ts d =
      some ⟨ts, d.name, (specExactValue payload d).emit⟩ := by
  unfold parseOneSignal
  rw [if_pos hty,
    if_neg (by omega : ¬ d.start_byte + d.length_bytes > payload.length)]
  simp only [intFromBytes_slice_eq_specRawInt payload d hlen hfit hbytes,
    specExactValue]

/-- C1 (amended): for a valid catalog signal whose byte range fits the
payload, decoding yields a sample carrying the quantized value
`emit(raw_int * scale + offset)` — `raw_int` stated positionally in the
spec's two's-complement form — where `emit` rounds floats to 4 decimal
places and keeps integers exact. -/
theorem decoded_sample_value (defs : List SignalDef) (d : SignalDef)
    (payload : List ℕ) (ts : ℚ)
    (hmem : d ∈ defs)
    (hty : d.ptype = "simple_scalar")
    (hbo : d.byte_order = "big" ∨ d.byte_order = "little")
    (hlen : 1 ≤ d.length_bytes)
    (hfit : d.start_byte + d.length_bytes ≤ payload.length)
    (hbytes : ∀ b ∈ payload, b < 256) :
    parseOneSignal payload ts d =
      some ⟨ts, d.name, (specExactValue payload d).emit⟩ ∧
    (⟨ts, d.name, (specExactValue payload d).emit⟩ : Sample) ∈
      parseCanMessage defs payload ts := by
  have heq := parseOneSignal_eq_spec d payload ts hty hlen hfit hbytes
  exact ⟨heq, List.mem_filterMap.mpr ⟨d, hmem, heq⟩⟩

/-- Concrete instance of `decoded_sample_value`: the spec's end-to-end
scenario 1, `{start 0, 2 bytes, scale 0.25, offset 0, unsigned, big}` on
payload `[0x01, 0x2C]` decodes to `75.0`. -/
def dScenario1 : SignalDef :=
  ⟨"EngineSpeed", "simple_scalar", 0, 2, .pfloat (1/4), .pint 0, false, "big"⟩

theorem decoded_sample_value_witness :
    parseOneSignal [1, 44] 0 dScenario1 =
      some ⟨0, "EngineSpeed", (specExactValue [1, 44] dScenario1).emit⟩ ∧
    (specExactValue [1, 44] dScenario1).emit = PyNum.pfloat 75 := by
  refine ⟨(decoded_sample_value [dScenario1] dScenario1 [1, 44] 0
    (List.mem_singleton.mpr rfl) rfl (Or.inl rfl) (by norm_num [dScenario1])
    (by norm_num [dScenario1]) (by decide)).1, ?_⟩
  norm_num [specExactValue, specRawInt, specRawUnsigned, dScenario1,
    PyNum.mulInt, PyNum.add, PyNum.emit, pyRound4, roundHalfEven,
    Finset.sum_range_succ,
    show ¬ ("big" : String) = "little" from by decide]

/-- C1 refuting instance for the exact-value reading: with
`scale = 0.00001`, the decoder emits `0.0` (the 4-decimal rounding of
`0.00001`) rather than `raw_int * scale + offset` itself. -/
def dTinyScale : SignalDef :=
  ⟨"tiny", "simple_scalar", 0, 1, .pfloat (1/100000), .pint 0, false, "big"⟩

theorem decoded_sample_value_cex :
    parseCanMessage [dTinyScale] [1] 0 = [⟨0, "tiny", PyNum.pfloat 0⟩] ∧
    specExactValue [1] dTinyScale = PyNum.pfloat (1/100000) ∧
    PyNum.pfloat 0 ≠ PyNum.pfloat (1/100000) := by
  refine ⟨?_, ?_, ?_⟩
  · norm_num [parseCanMessage, parseOneSignal, dTinyScale, intFromBytes,
      bytesToNatBE, PyNum.mulInt, PyNum.add, PyNum.emit, pyRound4,
      roundHalfEven, List.filterMap,
      show ¬ ("big" : String) = "little" from by decide]
  · norm_num [specExactValue, specRawInt, specRawUnsigned, dTinyScale,
      PyNum.mulInt, PyNum.add, Finset.sum_range_succ,
      show ¬ ("big" : String) = "little" from by decide]
  · intro h
    have : (0 : ℚ) = 1/100000 := by injection h
    norm_num at this

/-- C10: the emitted sample value is the 4-decimal (half-to-even) rounding
of the computed value when that value is a float, and the exact value when
it is an integer; the rounded value is within `1/20000` of the exact one
and is an integer multiple of `10⁻⁴`. -/
theorem decoded_value_quantization (d : SignalDef) (payload : List ℕ) (ts : ℚ)
    (hty : d.ptype = "simple_scalar")
    (hlen : 1 ≤ d.length_bytes)
    (hfit : d.start_byte + d.length_bytes ≤ payload.length)
    (hbytes : ∀ b ∈ payload, b < 256) :
    parseOneSignal payload ts d =
      some ⟨ts, d.name, (specExactValue payload d).emit⟩ ∧
    (∀ n : ℤ, specExactValue payload d = .pint n →
      (specExactValue payload d).emit = .pint n) ∧
    (∀ q : ℚ, specExactValue payload d = .pfloat q →
      (specExactValue payload d).emit = .pfloat (pyRound4 q) ∧
      |pyRound4 q - q| ≤ 1 / 20000 ∧ (pyRound4 q * 10 ^ 4).den = 1) := by
  refine ⟨parseOneSignal_eq_spec d payload ts hty hlen hfit hbytes, ?_, ?_⟩
  · intro n hn
    rw [hn]
    rfl
  · intro q hq
    rw [hq]
    exact ⟨rfl, pyRound4_diff q, pyRound4_quantized q⟩

/-- The spec's end-to-end scenario 2 angle signal: signed 16-bit at bytes
`[2:4]`, scale `0.1`, offset `-3276.8`, big-endian. -/
def dAngle : SignalDef :=
  ⟨"SteerAngle", "simple_scalar", 2, 2, .pfloat (1/10), .pfloat (-32768/10),
    true, "big"⟩

theorem decoded_value_quantization_witness :
    specExactValue [80, 0, 12, 123] dAngle = .pfloat (-29573/10) ∧
    (specExactValue [80, 0, 12, 123] dAngle).emit = .pfloat (-29573/10) := by
  have hv : specExactValue [80, 0, 12, 123] dAngle = .pfloat (-29573/10) := by
    norm_num [specExactValue, specRawInt, specRawUnsigned, dAngle,
      twosComplement, PyNum.mulInt, PyNum.add, Finset.sum_range_succ,
      show ¬ ("big" : String) = "little" from by decide]
  have h := decoded_value_quantization dAngle [80, 0, 12, 123] 0 rfl
    (by norm_num [dAngle]) (by norm_num [dAngle]) (by decide)
  have hr := (h.2.2 _ hv).1
  refine ⟨hv, ?_⟩
  rw [hr]
  norm_num [pyRound4, roundHalfEven]

/-- C6: a signal whose configured byte range does not fit the payload is
skipped — it contributes nothing to the decode result — and the decode
result is exactly that of the catalog restricted to the fitting signals. -/
theorem short_payload_signal_skipped (defs : List SignalDef)
    (payload : List ℕ) (ts : ℚ) :
    (∀ d ∈ defs, payload.length < d.start_byte + d.length_bytes →
      parseOneSignal payload ts d = none) ∧
    parseCanMessage defs payload ts =
      parseCanMessage
        (defs.filter fun d =>
          decide (d.start_byte + d.length_bytes ≤ payload.length))
        payload ts := by
  have hnone : ∀ d : SignalDef, payload.length < d.start_byte + d.length_bytes →
      parseOneSignal payload ts d = none := by
    intro d hshort
    unfold parseOneSignal
    by_cases hty : d.ptype = "simple_scalar"
    · rw [if_pos hty, if_pos (by omega)]
    · rw [if_neg hty]
  refine ⟨fun d _ h => hnone d h, ?_⟩
  induction defs with
  | nil => rfl
  | cons d ds ih =>
      by_cases hfit : d.start_byte + d.length_bytes ≤ payload.length
      · simp only [parseCanMessage, List.filterMap_cons, List.filter_cons,
          decide_eq_true hfit, if_pos rfl] at ih ⊢
        cases hp : parseOneSignal payload ts d <;>
          simp [hp, parseCanMessage] at ih ⊢ <;> exact ih
      · have h1 : parseOneSignal payload ts d = none := hnone d (by omega)
        simp only [parseCanMessage, List.filterMap_cons, List.filter_cons] at ih ⊢
        rw [h1]
        simp only [decide_eq_false hfit]
        exact ih

/-- A definition whose byte range needs 9 bytes: always skipped on an
8-byte-or-shorter payload. -/
def dNeedsNine : SignalDef :=
  ⟨"wide", "simple_scalar", 1, 8, .pint 1, .pint 0, false, "big"⟩

theorem short_payload_signal_skipped_witness :
    parseOneSignal [1, 44] 0 dNeedsNine = none ∧
    parseCanMessage [dNeedsNine, dScenario1] [1, 44] 0 =
      parseCanMessage [dScenario1] [1, 44] 0 := by
  have h := short_payload_signal_skipped [dNeedsNine, dScenario1] [1, 44] 0
  refine ⟨h.1 dNeedsNine (by simp) (by norm_num [dNeedsNine]), ?_⟩
  have h2 := h.2
  rwa [show ([dNeedsNine, dScenario1].filter fun d =>
      decide (d.start_byte + d.length_bytes ≤ ([1, 44] : List ℕ).length)) =
      [dScenario1] from by norm_num [dNeedsNine, dScenario1]] at h2

/-! ## RateLimiter theorems -/

/-- C9: `try_trigger` at instant `now` returns true and records `now` iff
`now - last_triggered_time ≥ interval`; otherwise it returns false and the
state (interval and last trigger time) is unchanged. -/
theorem try_trigger_spec (r : RateLimiter) (now : ℚ) :
    ((r.try_trigger now).1 = true ↔
      now - r.last_triggered_time ≥ r.interval) ∧
    ((r.try_trigger now).1 = true →
      (r.try_trigger now).2 = ⟨r.interval, now⟩) ∧
    ((r.try_trigger now).1 = false → (r.try_trigger now).2 = r) := by
  unfold RateLimiter.try_trigger
  by_cases h : r.interval ≤ now - r.last_triggered_time
  · rw [if_pos h]
    exact ⟨⟨fun _ => h, fun _ => rfl⟩, fun _ => rfl, fun hc => by simp at hc⟩
  · rw [if_neg h]
    exact ⟨⟨fun hc => by simp at hc, fun hg => absurd hg h⟩,
      fun hc => by simp at hc, fun _ => rfl⟩

theorem try_trigger_spec_witness :
    (((⟨2, 0⟩ : RateLimiter).try_trigger 3).1 = true) ∧
    (((⟨2, 0⟩ : RateLimiter).try_trigger 3).2 = ⟨2, 3⟩) := by
  have h := try_trigger_spec ⟨2, 0⟩ 3
  have ht : ((⟨2, 0⟩ : RateLimiter).try_trigger 3).1 = true :=
    h.1.mpr (by norm_num)
  exact ⟨ht, h.2.1 ht⟩

/-- C3 refuting instance: on a limiter with interval `1` whose clock reads
`1/2` (a monotonic clock may start near zero), the first `try_trigger`
after `reset()` returns false — `reset` does not force success for every
current monotonic clock value. -/
theorem reset_not_always_trigger_cex :
    ((RateLimiter.reset ⟨1, 5⟩).try_trigger (1/2)).1 = false := by
  norm_num [RateLimiter.reset, RateLimiter.try_trigger]

/-- C3 (amended): `reset()` clears `last_triggered_time` to `0`, so the
next `try_trigger` succeeds — independently of when the last successful
trigger happened — whenever the current monotonic clock value is at least
`interval`. -/
theorem reset_allows_trigger (r : RateLimiter) (now : ℚ)
    (h : r.interval ≤ now) :
    r.reset = ⟨r.interval, 0⟩ ∧ ((r.reset).try_trigger now).1 = true := by
  refine ⟨rfl, ?_⟩
  unfold RateLimiter.reset RateLimiter.try_trigger
  rw [if_pos (by simpa using h)]

theorem reset_allows_trigger_witness :
    (1 : ℚ) ≤ 7 ∧ (((⟨1, 5⟩ : RateLimiter).reset).try_trigger 7).1 = true :=
  ⟨by norm_num, (reset_allows_trigger ⟨1, 5⟩ 7 (by norm_num)).2⟩

/-! ## Catalog build (`CANHandler._parse_message_definitions`)

The raw `message_definitions` config is untrusted JSON: records are
modelled as a small universe of JSON values.  A record that raises inside
the loop body (e.g. a non-dict record) is caught and skipped, so every
failure mode maps to "contributes nothing". -/

/-- A JSON-ish Python value, as found in the untyped configuration. -/
inductive JVal where
  | jnull : JVal
  | jbool (b : Bool) : JVal
  | jnum (v : PyNum) : JVal
  | jstr (s : String) : JVal
  | jarr (xs : List JVal) : JVal
  | jobj (fields : List (String × JVal)) : JVal

/-- `dict.get(k)`: the first binding of `k`, if any. -/
def lookupField (fields : List (String × JVal)) (k : String) : Option JVal :=
  (fields.find? (fun p => p.1 == k)).map (·.2)

/-- Whether a character is a hexadecimal digit. -/
def isHexDigitChar (c : Char) : Bool :=
  c.isDigit || ('a' ≤ c && c ≤ 'f') || ('A' ≤ c && c ≤ 'F')

/-- Numeric value of a hexadecimal digit character. -/
def hexDigitVal (c : Char) : ℕ :=
  if c.isDigit then c.toNat - '0'.toNat
  else if 'a' ≤ c && c ≤ 'f' then c.toNat - 'a'.toNat + 10
  else c.toNat - 'A'.toNat + 10

/-- Validity of the tail of a hex digit run: underscores only single and
only between digits. -/
def hexRestOk : List Char → Bool
  | [] => true
  | '_' :: [] => false
  | '_' :: c :: rest => isHexDigitChar c && hexRestOk rest
  | c :: rest => isHexDigitChar c && hexRestOk rest

/-- Validity of a hex digit run: nonempty and starting with a digit. -/
def plainHexOk : List Char → Bool
  | [] => false
  | c :: rest => isHexDigitChar c && hexRestOk rest

/-- Accumulated value of a hex digit run (underscores skipped). -/
def hexValue (cs : List Char) : ℕ :=
  cs.foldl (fun acc c => if c = '_' then acc else acc * 16 + hexDigitVal c) 0

/-- Python `int(s, 16)`: optional surrounding whitespace, optional sign,
optional `0x`/`0X` prefix (after which a single leading underscore is
permitted), then underscore-separated hex digits.  `none` models the
`ValueError` that the build loop catches and turns into a skip. -/
def parsePyHex (s : String) : Option ℤ :=
  let cs0 := s.data.dropWhile (fun c => c.isWhitespace)
  let cs1 := ((cs0.reverse.dropWhile (fun c => c.isWhitespace))).reverse
  let signed : ℤ × List Char :=
    match cs1 with
    | '+' :: rest => (1, rest)
    | '-' :: rest => (-1, rest)
    | _ => (1, cs1)
  let prefixed : Bool × List Char :=
    match signed.2 with
    | '0' :: 'x' :: rest => (true, rest)
    | '0' :: 'X' :: rest => (true, rest)
    | _ => (false, signed.2)
  let ok : Bool :=
    if prefixed.1 then
      match prefixed.2 with
      | '_' :: rest => plainHexOk rest
      | cs => plainHexOk cs
    else plainHexOk prefixed.2
  if ok then some (signed.1 * (hexValue prefixed.2 : ℤ)) else none

/-- The `parser` keys required of a `simple_scalar` definition. -/
def requiredParserKeys : List String :=
  ["start_byte", "length_bytes", "scale", "offset", "is_signed", "byte_order"]

/-- One stored catalog entry:
`{"name": name, "parser_config": parser_config}` with the parser fields
kept untyped, exactly as the source stores them. -/
structure CatalogEntry where
  name : String
  parser_config : List (String × JVal)

/-- The body of the `_parse_message_definitions` loop for one record:
`some (can_id, entry)` when the record passes every check, `none` when it
is skipped (including the exception paths). -/
def parseOneDefinition (record : JVal) : Option (ℤ × CatalogEntry) :=
  match record with
  | .jobj fields =>
    match lookupField fields "id" with
    | some (.jstr idStr) =>
      if idStr = "" then none
      else
        match parsePyHex idStr with
        | none => none
        | some can_id =>
          match lookupField fields "name" with
          | some (.jstr nm) =>
            if nm = "" then none
            else
              match lookupField fields "parser" with
              | some (.jobj pfields) =>
                if pfields.isEmpty then none
                else
                  match lookupField pfields "type" with
                  | some (.jstr t) =>
                    if t = "simple_scalar" then
                      if requiredParserKeys.all
                          (fun k => (lookupField pfields k).isSome) then
                        some (can_id, ⟨nm, pfields⟩)
                      else none
                    else none
                  | _ => none
              | _ => none
          | _ => none
    | _ => none
  | _ => none

/-- Appending one accepted entry to the catalog under its id, preserving
first-encounter key order and per-id encounter order. -/
def catAdd (cat : List (ℤ × List CatalogEntry)) (i : ℤ) (e : CatalogEntry) :
    List (ℤ × List CatalogEntry) :=
  match cat with
  | [] => [(i, [e])]
  | (j, es) :: rest =>
      if j = i then (j, es ++ [e]) :: rest else (j, es) :: catAdd rest i e

/-- The fold over all records of the `message_definitions` list. -/
def buildCatalog (records : List JVal) : List (ℤ × List CatalogEntry) :=
  records.foldl
    (fun cat r =>
      match parseOneDefinition r with
      | some (i, e) => catAdd cat i e
      | none => cat)
    []

/-- `_parse_message_definitions`: a non-list `message_definitions` value
yields an empty catalog (error logged, no raise). -/
def parseMessageDefinitions (raw : JVal) : List (ℤ × List CatalogEntry) :=
  match raw with
  | .jarr records => buildCatalog records
  | _ => []

/-- The amended acceptance condition, stated independently: a
hexadecimal-string id, a non-empty string name, a non-empty dict parser of
type `simple_scalar` with all six scalar keys present (their values are
not type-checked). -/
def acceptedRecord (r : JVal) : Prop :=
  ∃ fields idStr nm pfields,
    r = .jobj fields ∧
    lookupField fields "id" = some (.jstr idStr) ∧ idStr ≠ "" ∧
    (parsePyHex idStr).isSome ∧
    lookupField fields "name" = some (.jstr nm) ∧ nm ≠ "" ∧
    lookupField fields "parser" = some (.jobj pfields) ∧ pfields ≠ [] ∧
    lookupField pfields "type" = some (.jstr "simple_scalar") ∧
    ∀ k ∈ requiredParserKeys, (lookupField pfields k).isSome

theorem parseOneDefinition_isSome_iff (r : JVal) :
    (parseOneDefinition r).isSome = true ↔ acceptedRecord r := by
  constructor
  · intro h
    unfold parseOneDefinition at h
    repeat' split at h
    all_goals try simp at h
    exact ⟨_, _, _, _, rfl, by assumption, by simp_all, by simp_all,
      by assumption, by simp_all, by assumption, by simp_all, by simp_all,
      by simp_all [List.all_eq_true]⟩
  · rintro ⟨fields, idStr, nm, pfields, rfl, hid, hid0, hhex, hnm, hnm0,
      hp, hp0, hty, hkeys⟩
    obtain ⟨v, hv⟩ := Option.isSome_iff_exists.mp hhex
    have hempty : pfields.isEmpty = false := by
      cases pfields with
      | nil => exact absurd rfl hp0
      | cons a l => rfl
    have hall : requiredParserKeys.all
        (fun k => (lookupField pfields k).isSome) = true := by
      rw [List.all_eq_true]
      intro k hk
      exact hkeys k hk
    unfold parseOneDefinition
    simp only [hid, hid0, hv, hnm, hnm0, hp, hempty, hty, hall,
      if_false, if_true, Bool.false_eq_true, Option.isSome_some]

/-- C5 (amended): a record is accepted into the catalog iff it has a
hexadecimal-string id, a non-empty string name, and a non-empty `parser`
dict of type `simple_scalar` with all six scalar keys present — the key
*values* are not type-checked; and a record that fails any check is
skipped while every other record is still processed (the build is a total
fold, never an abort). -/
theorem catalog_record_acceptance (r bad : JVal) (l1 l2 : List JVal)
    (hbad : parseOneDefinition bad = none) :
    ((parseOneDefinition r).isSome = true ↔ acceptedRecord r) ∧
    parseMessageDefinitions (.jarr (l1 ++ bad :: l2)) =
      parseMessageDefinitions (.jarr (l1 ++ l2)) := by
  refine ⟨parseOneDefinition_isSome_iff r, ?_⟩
  show buildCatalog (l1 ++ bad :: l2) = buildCatalog (l1 ++ l2)
  unfold buildCatalog
  simp only [List.foldl_append, List.foldl_cons, hbad]

/-- Parser fields that are present but plainly mistyped (a string
`start_byte`, etc.). -/
def pWrongTypes : List (String × JVal) :=
  [("type", .jstr "simple_scalar"), ("start_byte", .jstr "zero"),
   ("length_bytes", .jstr "two"), ("scale", .jstr "x"),
   ("offset", .jstr "y"), ("is_signed", .jstr "no"),
   ("byte_order", .jnum (.pint 7))]

/-- A record whose parser keys are all present but of the wrong types. -/
def recWrongTypes : JVal :=
  .jobj [("id", .jstr "0x123"), ("name", .jstr "Sig"),
    ("parser", .jobj pWrongTypes)]

theorem catalog_record_acceptance_cex :
    (parseOneDefinition recWrongTypes).isSome = true ∧
    lookupField pWrongTypes "start_byte" = some (.jstr "zero") := by
  constructor <;> rfl

/-- A fully well-formed record. -/
def recGood : JVal :=
  .jobj [("id", .jstr "0x1A0"), ("name", .jstr "EngineRate"),
    ("parser", .jobj [("type", .jstr "simple_scalar"),
      ("start_byte", .jnum (.pint 0)), ("length_bytes", .jnum (.pint 1)),
      ("scale", .jnum (.pfloat (1/2))), ("offset", .jnum (.pint 0)),
      ("is_signed", .jbool false), ("byte_order", .jstr "big")])]

theorem catalog_record_acceptance_witness :
    (parseOneDefinition recGood).isSome = true ∧
    parseMessageDefinitions (.jarr ([recGood] ++ JVal.jstr "oops" :: [])) =
      parseMessageDefinitions (.jarr ([recGood] ++ [])) := by
  have h := catalog_record_acceptance recGood (.jstr "oops") [recGood] [] rfl
  exact ⟨by rfl, h.2⟩

/-! ## Bus listener (`CANHandler._listener_loop` and `_connect`)

The receive loop is modelled as a fold over the sequence of outcomes of
`bus.recv`: a frame, a timeout (`None`), a `can.CanError`, or any other
exception.  The stop signal is a state field read by the loop condition
(never set within one run of the loop, which executes on its own thread).
`_connect` draws a fresh list of per-attempt open outcomes each time it is
invoked. -/

/-- One outcome of `bus.recv(timeout=...)` in the listener loop. -/
inductive BusEvent where
  | frame (arbitration_id : ℕ) (payload : List ℕ) (timestamp : ℚ) : BusEvent
  | timeout : BusEvent
  | canError : BusEvent
  | otherError : BusEvent

/-- `_connect`: up to `retries + 1` attempts to open the bus; the call
succeeds iff one of them does (the stop signal is not set here). -/
def connectOutcome (attempts : List Bool) (retries : ℕ) : Bool :=
  (attempts.take (retries + 1)).any id

/-- The listener's mutable state: the stop flag, the two connection
fields, the bounded sample queue, a count of dropped samples (the warning
path), and a count of `_connect` invocations made from the running loop. -/
@[ext]
structure ListenerState where
  stop : Bool
  is_connected : Bool
  busHeld : Bool
  queue : List Sample
  dropped : ℕ
  connectCalls : ℕ
  deriving Repr, DecidableEq

/-- `data_queue.put_nowait` per decoded item: append when below capacity,
otherwise drop that item and warn (never block). -/
def enqueueSamples (cap : ℕ) :
    List Sample → ℕ → List Sample → List Sample × ℕ
  | q, dropped, [] => (q, dropped)
  | q, dropped, x :: xs =>
      if q.length < cap then enqueueSamples cap (q ++ [x]) dropped xs
      else enqueueSamples cap q (dropped + 1) xs

/-- `_listener_loop` over a finite schedule of receive outcomes.  On a
`can.CanError`: mark disconnected, release the bus, call `_connect` once;
if that fails, break out of the loop. -/
def listenerLoop (catalog : ℕ → List SignalDef) (cap : ℕ)
    (attempts : ℕ → List Bool) (retries : ℕ) :
    List BusEvent → ListenerState → ListenerState
  | [], st => st
  | e :: rest, st =>
      if st.stop = false ∧ st.is_connected = true ∧ st.busHeld = true then
        match e with
        | .frame aid payload ts =>
            let parsed := parseCanMessage (catalog aid) payload ts
            let qd := enqueueSamples cap st.queue st.dropped parsed
            listenerLoop catalog cap attempts retries rest
              { st with queue := qd.1, dropped := qd.2 }
        | .timeout => listenerLoop catalog cap attempts retries rest st
        | .canError =>
            if connectOutcome (attempts st.connectCalls) retries then
              listenerLoop catalog cap attempts retries rest
                { st with
                    is_connected := true
                    busHeld := true
                    connectCalls := st.connectCalls + 1 }
            else
              { st with
                  is_connected := false
                  busHeld := false
                  connectCalls := st.connectCalls + 1 }
        | .otherError => listenerLoop catalog cap attempts retries rest st
      else st

/-- C2: in a running, connected listener, a bus-level error marks the
listener disconnected, releases the bus handle, invokes `_connect` exactly
once, and — when that reconnect fails — exits the receive loop with the
remaining schedule ignored (a terminal state); when it succeeds, the loop
continues with the connection restored. -/
theorem bus_error_single_reconnect (catalog : ℕ → List SignalDef) (cap : ℕ)
    (attempts : ℕ → List Bool) (retries : ℕ) (rest : List BusEvent)
    (st : ListenerState)
    (hstop : st.stop = false) (hconn : st.is_connected = true)
    (hbus : st.busHeld = true) :
    (connectOutcome (attempts st.connectCalls) retries = true →
      listenerLoop catalog cap attempts retries (.canError :: rest) st =
        listenerLoop catalog cap attempts retries rest
          { st with
              is_connected := true
              busHeld := true
              connectCalls := st.connectCalls + 1 }) ∧
    (connectOutcome (attempts st.connectCalls) retries = false →
      listenerLoop catalog cap attempts retries (.canError :: rest) st =
        { st with
            is_connected := false
            busHeld := false
            connectCalls := st.connectCalls + 1 }) := by
  constructor <;> intro h <;>
    simp [listenerLoop, hstop, hconn, hbus, h]

theorem bus_error_single_reconnect_witness :
    listenerLoop (fun _ => []) 200 (fun _ => [false]) 0
      [.canError] ⟨false, true, true, [], 0, 0⟩ =
      ⟨false, false, false, [], 0, 1⟩ := by
  have h := (bus_error_single_reconnect (fun _ => []) 200 (fun _ => [false])
    0 [] ⟨false, true, true, [], 0, 0⟩ rfl rfl rfl).2 (by rfl)
  rw [h]

/-! ### Queue-capacity lemmas -/

theorem enqueueSamples_eq (cap : ℕ) (xs : List Sample) (q : List Sample)
    (d : ℕ) (h : q.length ≤ cap) :
    enqueueSamples cap q d xs =
      (q ++ xs.take (cap - q.length),
       d + (xs.length - (cap - q.length))) := by
  induction xs generalizing q d with
  | nil => simp [enqueueSamples]
  | cons x xs ih =>
      by_cases hlt : q.length < cap
      · rw [enqueueSamples, if_pos hlt, ih (q ++ [x]) d (by simp; omega)]
        have hl : (q ++ [x]).length = q.length + 1 := by simp
        have htake : (x :: xs).take (cap - q.length) =
            x :: xs.take (cap - (q.length + 1)) := by
          rw [show cap - q.length = (cap - (q.length + 1)) + 1 by omega,
            List.take_succ_cons]
        rw [hl, htake]
        simp only [Prod.mk.injEq, List.append_assoc, List.singleton_append,
          List.length_cons]
        refine ⟨by simp, by omega⟩
      · have h0 : cap - q.length = 0 := by omega
        rw [enqueueSamples, if_neg hlt, ih q (d + 1) h, h0]
        simp only [List.take_zero, List.append_nil, Nat.sub_zero,
          Prod.mk.injEq, List.length_cons]
        refine ⟨by simp, by omega⟩

/-- The receive outcomes for a list of frames
`(arbitration_id, payload, timestamp)`. -/
def framesToEvents (fs : List (ℕ × List ℕ × ℚ)) : List BusEvent :=
  fs.map (fun f => .frame f.1 f.2.1 f.2.2)

/-- All samples decoded from a list of frames, in arrival order. -/
def decodedOf (catalog : ℕ → List SignalDef) (fs : List (ℕ × List ℕ × ℚ)) :
    List Sample :=
  (fs.map (fun f => parseCanMessage (catalog f.1) f.2.1 f.2.2)).flatten

theorem listenerLoop_frames (catalog : ℕ → List SignalDef) (cap : ℕ)
    (attempts : ℕ → List Bool) (retries : ℕ) (fs : List (ℕ × List ℕ × ℚ))
    (st : ListenerState)
    (hstop : st.stop = false) (hconn : st.is_connected = true)
    (hbus : st.busHeld = true) (hlen : st.queue.length ≤ cap) :
    listenerLoop catalog cap attempts retries (framesToEvents fs) st =
      { st with
          queue := st.queue ++ (decodedOf catalog fs).take (cap - st.queue.length)
          dropped := st.dropped +
            ((decodedOf catalog fs).length - (cap - st.queue.length)) } := by
  induction fs generalizing st with
  | nil =>
      simp only [framesToEvents, List.map_nil, listenerLoop, decodedOf,
        List.flatten_nil, List.take_nil, List.append_nil, List.length_nil,
        Nat.zero_sub, Nat.add_zero]
  | cons f fs ih =>
      rw [framesToEvents, List.map_cons]
      rw [show listenerLoop catalog cap attempts retries
          (BusEvent.frame f.1 f.2.1 f.2.2 :: List.map
            (fun f => BusEvent.frame f.1 f.2.1 f.2.2) fs) st =
          (if st.stop = false ∧ st.is_connected = true ∧ st.busHeld = true then
            listenerLoop catalog cap attempts retries
              (List.map (fun f => BusEvent.frame f.1 f.2.1 f.2.2) fs)
              { st with
                  queue := (enqueueSamples cap st.queue st.dropped
                    (parseCanMessage (catalog f.1) f.2.1 f.2.2)).1
                  dropped := (enqueueSamples cap st.queue st.dropped
                    (parseCanMessage (catalog f.1) f.2.1 f.2.2)).2 }
          else st) from rfl]
      rw [if_pos ⟨hstop, hconn, hbus⟩,
        enqueueSamples_eq cap _ st.queue st.dropped hlen]
      dsimp only
      have hlen2 : (st.queue ++
          (parseCanMessage (catalog f.1) f.2.1 f.2.2).take
            (cap - st.queue.length)).length ≤ cap := by
        simp only [List.length_append, List.length_take]
        omega
      rw [show framesToEvents fs =
          List.map (fun f => BusEvent.frame f.1 f.2.1 f.2.2) fs from rfl] at ih
      rw [ih { st with
          queue := st.queue ++ (parseCanMessage (catalog f.1) f.2.1 f.2.2).take
            (cap - st.queue.length)
          dropped := st.dropped +
            ((parseCanMessage (catalog f.1) f.2.1 f.2.2).length -
              (cap - st.queue.length)) }
        hstop hconn hbus hlen2]
      have hdec : decodedOf catalog (f :: fs) =
          parseCanMessage (catalog f.1) f.2.1 f.2.2 ++ decodedOf catalog fs := by
        simp [decodedOf]
      have hidx : cap - (st.queue.length +
          min (cap - st.queue.length)
            (parseCanMessage (catalog f.1) f.2.1 f.2.2).length) =
          (cap - st.queue.length) -
            (parseCanMessage (catalog f.1) f.2.1 f.2.2).length := by
        omega
      ext <;> simp only [hdec, List.take_append_eq_append_take,
        List.length_append, List.length_take, List.append_assoc, hidx] <;>
        try rfl
      omega

/-- C4: with a bounded queue of capacity `cap` and at least `cap` samples
produced by the listener before any drain, the enqueue never blocks: the
final queue holds exactly the `cap` oldest samples in arrival order, and
every sample beyond capacity is dropped at its own enqueue (counted, with
a warning). -/
theorem queue_capacity_drop_newest (catalog : ℕ → List SignalDef) (cap : ℕ)
    (attempts : ℕ → List Bool) (retries : ℕ) (fs : List (ℕ × List ℕ × ℚ))
    (st : ListenerState)
    (hstop : st.stop = false) (hconn : st.is_connected = true)
    (hbus : st.busHeld = true) (hq : st.queue = []) (hd : st.dropped = 0)
    (hover : cap ≤ (decodedOf catalog fs).length) :
    (listenerLoop catalog cap attempts retries (framesToEvents fs) st).queue =
      (decodedOf catalog fs).take cap ∧
    (listenerLoop catalog cap attempts retries
      (framesToEvents fs) st).queue.length = cap ∧
    (listenerLoop catalog cap attempts retries (framesToEvents fs) st).dropped =
      (decodedOf catalog fs).length - cap := by
  have h := listenerLoop_frames catalog cap attempts retries fs st
    hstop hconn hbus (by rw [hq]; simp)
  rw [h]
  simp only [hq, hd, List.nil_append, List.length_nil, Nat.sub_zero,
    Nat.zero_add, List.length_take]
  exact ⟨trivial, by omega, trivial⟩

/-- An 8-bit unsigned integer signal at byte 0,
`scale = 1, offset = 0` (integer arithmetic, value is the raw byte). -/
def dByteSig : SignalDef :=
  ⟨"b", "simple_scalar", 0, 1, .pint 1, .pint 0, false, "big"⟩

theorem queue_capacity_drop_newest_witness :
    (listenerLoop (fun _ => [dByteSig]) 2 (fun _ => []) 3
      (framesToEvents [(0, [1], 0), (0, [2], 0), (0, [3], 0)])
      ⟨false, true, true, [], 0, 0⟩).queue =
      [⟨0, "b", .pint 1⟩, ⟨0, "b", .pint 2⟩] ∧
    (listenerLoop (fun _ => [dByteSig]) 2 (fun _ => []) 3
      (framesToEvents [(0, [1], 0), (0, [2], 0), (0, [3], 0)])
      ⟨false, true, true, [], 0, 0⟩).dropped = 1 := by
  have h := queue_capacity_drop_newest (fun _ => [dByteSig]) 2 (fun _ => []) 3
    [(0, [1], 0), (0, [2], 0), (0, [3], 0)] ⟨false, true, true, [], 0, 0⟩
    rfl rfl rfl rfl rfl (by decide)
  refine ⟨?_, ?_⟩
  · rw [h.1]
    decide
  · rw [h.2.2]
    decide

/-! ## Aggregation cycle (`AVSIP._collect_data`, `_process_and_transmit_data`,
`_data_loop`)

One cycle is modelled as a pure function of the collaborator responses for
that cycle (position payload, diagnostic readings, drained queue items),
the sink availability flags, the monotonic instant and the Traccar rate
limiter state. -/

/-- The fields of the GPS payload dict that the dispatch logic reads;
`none` models a missing key. -/
structure GpsData where
  latitude : Option ℚ
  longitude : Option ℚ
  deriving Repr, DecidableEq

/-- One cycle's aggregated snapshot (`collected_data`). -/
structure Snapshot where
  timestamp_utc : ℚ
  device_id : String
  sensors : List (String × PyNum)
  gps : Option GpsData
  dtcs : List String
  can_data : List (String × PyNum)
  deriving Repr, DecidableEq

/-- Python dict assignment `m[k] = v`: replace in place or append. -/
def updateAssoc (m : List (String × PyNum)) (k : String) (v : PyNum) :
    List (String × PyNum) :=
  match m with
  | [] => [(k, v)]
  | (k', v') :: rest =>
      if k' = k then (k', v) :: rest else (k', v') :: updateAssoc rest k v

/-- The queue-drain fold: `can_data[msg.name] = msg.value` per drained
item, last write wins. -/
def foldSamples (m : List (String × PyNum)) (items : List Sample) :
    List (String × PyNum) :=
  items.foldl (fun acc s => updateAssoc acc s.name s.value) m

/-- One cycle's collaborator responses: the GPS payload (`none` for a
missing or empty payload), the OBD reading (`none` when the diagnostic
source is disabled or not connected), and the drained CAN queue items
(`none` when the CAN source is disabled or not connected). -/
structure CollectInputs where
  gps : Option GpsData
  obd : Option (List (String × PyNum) × List String)
  canDrain : Option (List Sample)

/-- The `sensors` mapping collected this cycle. -/
def collectSensors (inp : CollectInputs) : List (String × PyNum) :=
  match inp.obd with
  | some p => p.1
  | none => []

/-- The `dtcs` list collected this cycle. -/
def collectDtcs (inp : CollectInputs) : List String :=
  match inp.obd with
  | some p => p.2
  | none => []

/-- The `can_data` mapping folded from the drained queue this cycle. -/
def collectCan (inp : CollectInputs) : List (String × PyNum) :=
  match inp.canDrain with
  | some xs => foldSamples [] xs
  | none => []

/-- `_collect_data`: build the snapshot; return `none` (discard) when no
sensor, GPS, DTC or CAN data was collected. -/
def collectData (ts : ℚ) (device_id : String) (inp : CollectInputs) :
    Option Snapshot :=
  let sensors := collectSensors inp
  let dtcs := collectDtcs inp
  let can_data := collectCan inp
  if sensors.isEmpty && inp.gps.isNone && dtcs.isEmpty && can_data.isEmpty then
    none
  else
    some ⟨ts, device_id, sensors, inp.gps, dtcs, can_data⟩

/-- Availability of each sink for this cycle (config flag plus
handler-connected/configured state, as read at lines 309, 316, 323). -/
structure SinkConfig where
  meshtasticOn : Bool
  mqttOn : Bool
  traccarEnabled : Bool
  traccarConfigured : Bool
  deriving Repr, DecidableEq

/-- Which sinks one cycle attempted to send to, and the Traccar rate
limiter state afterwards. -/
structure TransmitResult where
  meshAttempted : Bool
  mqttAttempted : Bool
  traccarAttempted : Bool
  limiter : Option RateLimiter
  deriving Repr, DecidableEq

/-- The Traccar GPS gate: a `gps` entry exists, both latitude and
longitude are present, and they are not simultaneously exactly zero. -/
def gpsFixValid (g : Option GpsData) : Bool :=
  match g with
  | some gd =>
      match gd.latitude, gd.longitude with
      | some lat, some lon => decide (lat ≠ 0 ∨ lon ≠ 0)
      | _, _ => false
  | none => false

/-- `_process_and_transmit_data`: Meshtastic and MQTT are attempted
whenever available; Traccar additionally requires its handler configured,
a rate limiter, a valid fix, and a successful `try_trigger`. -/
def processAndTransmitData (cfg : SinkConfig) (snapshot : Snapshot)
    (now : ℚ) (lim : Option RateLimiter) : TransmitResult :=
  match lim with
  | some r =>
      if cfg.traccarEnabled && cfg.traccarConfigured then
        if gpsFixValid snapshot.gps then
          let tr := r.try_trigger now
          ⟨cfg.meshtasticOn, cfg.mqttOn, tr.1, some tr.2⟩
        else
          ⟨cfg.meshtasticOn, cfg.mqttOn, false, some r⟩
      else
        ⟨cfg.meshtasticOn, cfg.mqttOn, false, some r⟩
  | none => ⟨cfg.meshtasticOn, cfg.mqttOn, false, none⟩

/-- One `_data_loop` cycle: collect, and transmit only when a snapshot was
produced. -/
def dataCycle (cfg : SinkConfig) (ts : ℚ) (device_id : String)
    (inp : CollectInputs) (now : ℚ) (lim : Option RateLimiter) :
    TransmitResult × Option Snapshot :=
  match collectData ts device_id inp with
  | some snap => (processAndTransmitData cfg snap now lim, some snap)
  | none => (⟨false, false, false, lim⟩, none)

/-- C7: with Traccar enabled, configured and holding its limiter, the
tracking sink is attempted exactly when the fix is valid and `try_trigger`
succeeds; the other two sinks are attempted according to their own
availability only (a throttled cycle skips just the tracking sink, and
leaves the limiter untouched when the fix gate already failed); and for
two cycles 5 seconds apart under a 30-second interval with valid fixes,
only the first dispatches to the tracking sink. -/
theorem traccar_gating (cfg : SinkConfig) (s1 s2 : Snapshot) (now : ℚ)
    (r : RateLimiter)
    (hen : cfg.traccarEnabled = true) (hcf : cfg.traccarConfigured = true)
    (hint : r.interval = 30)
    (helapsed : r.interval ≤ now - r.last_triggered_time)
    (hfix1 : gpsFixValid s1.gps = true) (hfix2 : gpsFixValid s2.gps = true) :
    ((processAndTransmitData cfg s1 now (some r)).traccarAttempted =
      (gpsFixValid s1.gps && (r.try_trigger now).1)) ∧
    ((processAndTransmitData cfg s1 now (some r)).meshAttempted =
      cfg.meshtasticOn) ∧
    ((processAndTransmitData cfg s1 now (some r)).mqttAttempted =
      cfg.mqttOn) ∧
    (∀ s : Snapshot, gpsFixValid s.gps = false →
      processAndTransmitData cfg s now (some r) =
        ⟨cfg.meshtasticOn, cfg.mqttOn, false, some r⟩) ∧
    ((processAndTransmitData cfg s1 now (some r)).traccarAttempted = true) ∧
    ((processAndTransmitData cfg s2 (now + 5)
        (processAndTransmitData cfg s1 now (some r)).limiter).traccarAttempted
      = false) ∧
    (∀ (s : Snapshot) (t : ℚ) (l : Option RateLimiter),
      (processAndTransmitData cfg s t l).meshAttempted = cfg.meshtasticOn ∧
      (processAndTransmitData cfg s t l).mqttAttempted = cfg.mqttOn) := by
  have htr1 : (r.try_trigger now) = (true, ⟨r.interval, now⟩) := by
    unfold RateLimiter.try_trigger
    rw [if_pos helapsed]
  have hres1 : processAndTransmitData cfg s1 now (some r) =
      ⟨cfg.meshtasticOn, cfg.mqttOn, true, some ⟨r.interval, now⟩⟩ := by
    unfold processAndTransmitData
    rw [hen, hcf]
    simp only [Bool.and_self, if_true, hfix1, htr1]
  have htr2 : ((⟨r.interval, now⟩ : RateLimiter).try_trigger (now + 5)) =
      (false, ⟨r.interval, now⟩) := by
    unfold RateLimiter.try_trigger
    rw [if_neg (by rw [hint]; norm_num)]
  refine ⟨?_, ?_, ?_, ?_, ?_, ?_, ?_⟩
  · rw [hres1, hfix1, htr1]
    rfl
  · rw [hres1]
  · rw [hres1]
  · intro s hs
    unfold processAndTransmitData
    rw [hen, hcf]
    simp only [Bool.and_self, if_true, hs, Bool.false_eq_true, if_false]
  · rw [hres1]
  · rw [hres1]
    unfold processAndTransmitData
    rw [hen, hcf]
    simp only [Bool.and_self, if_true, hfix2, htr2]
  · intro s t l
    cases l with
    | none => exact ⟨rfl, rfl⟩
    | some rl =>
        unfold processAndTransmitData
        split_ifs <;> exact ⟨rfl, rfl⟩

theorem traccar_gating_witness :
    (processAndTransmitData ⟨true, true, true, true⟩
      ⟨0, "d", [], some ⟨some 1, some 2⟩, [], []⟩ 100
      (some ⟨30, 0⟩)).traccarAttempted = true ∧
    (processAndTransmitData ⟨true, true, true, true⟩
      ⟨0, "d", [], some ⟨some 1, some 2⟩, [], []⟩ 105
      (processAndTransmitData ⟨true, true, true, true⟩
        ⟨0, "d", [], some ⟨some 1, some 2⟩, [], []⟩ 100
        (some ⟨30, 0⟩)).limiter).traccarAttempted = false := by
  have h := traccar_gating ⟨true, true, true, true⟩
    ⟨0, "d", [], some ⟨some 1, some 2⟩, [], []⟩
    ⟨0, "d", [], some ⟨some 1, some 2⟩, [], []⟩ 100 ⟨30, 0⟩
    rfl rfl rfl (by norm_num) (by decide) (by decide)
  refine ⟨h.2.2.2.2.1, ?_⟩
  have h2 := h.2.2.2.2.2.1
  rw [show (100 : ℚ) + 5 = 105 from by norm_num] at h2
  exact h2

/-- C8: a cycle in which no sensor values, no GPS payload, no fault codes
and no queued bus samples were collected produces no snapshot, and
dispatches to no sink (and the limiter is left untouched). -/
theorem empty_cycle_no_dispatch (cfg : SinkConfig) (ts : ℚ)
    (device_id : String) (now : ℚ) (lim : Option RateLimiter)
    (inp : CollectInputs)
    (hg : inp.gps = none)
    (hs : collectSensors inp = [])
    (hdt : collectDtcs inp = [])
    (hc : collectCan inp = []) :
    collectData ts device_id inp = none ∧
    dataCycle cfg ts device_id inp now lim =
      (⟨false, false, false, lim⟩, none) := by
  have hcol : collectData ts device_id inp = none := by
    unfold collectData
    rw [hs, hdt, hc, hg]
    rfl
  refine ⟨hcol, ?_⟩
  unfold dataCycle
  rw [hcol]

theorem empty_cycle_no_dispatch_witness :
    collectData 0 "d" ⟨none, none, some []⟩ = none ∧
    dataCycle ⟨true, true, true, true⟩ 0 "d" ⟨none, none, some []⟩ 100
      (some ⟨30, 0⟩) = (⟨false, false, false, some ⟨30, 0⟩⟩, none) :=
  empty_cycle_no_dispatch ⟨true, true, true, true⟩ 0 "d" 100
    (some ⟨30, 0⟩) ⟨none, none, some []⟩ rfl rfl rfl rfl

end AVSIP
